import Mathlib

/-!
Shallow embedding of `src/index.js` (the "bounded random redirector").

The ambient browser random source `Math.random()` is modelled as a stream
`rs : ℕ → ℚ` of values, consumed in call order; a position index `k` is
threaded through every function that draws randomness, and each function
returns the next unused position together with its result.  A source is
*valid* when every value lies in `[0, 1)`, which is exactly what
`Math.random()` guarantees.

Browser `localStorage` for the single key `randomRedirectCount` is modelled
as an `Option String` (`none` = entry absent, `getItem` returns `null`).
-/

/-- JavaScript `Math.floor(q * n)` for `q : ℚ` and an integer bound `n`,
as used in every `Math.floor(Math.random() * n)` expression of the source.
For `0 ≤ q < 1` the result lies in `[0, n-1]`. -/
def mathFloorScale (q : ℚ) (n : ℕ) : ℕ :=
  (⌊q * n⌋).toNat

/-- A random source is valid when every produced value lies in `[0, 1)`,
the contract of `Math.random()`. -/
def ValidSource (rs : ℕ → ℚ) : Prop :=
  ∀ i, 0 ≤ rs i ∧ rs i < 1

/-- The all-zeros random source, used to instantiate universally quantified
statements at a concrete valid stream. -/
def zeroSource : ℕ → ℚ := fun _ => 0

/-- JavaScript `array[i]` on a string array; an in-range read returns the
element.  (An out-of-range read is `undefined` in JS; it is unreachable for a
valid source and a non-empty list, and is mapped to `""` here.) -/
def jsListGet (l : List String) (i : ℕ) : String :=
  (l.get? i).getD ""

/-- JavaScript `s.charAt(i)`: the one-character string at index `i`, or the
empty string when `i` is out of range. -/
def jsCharAt (s : String) (i : ℕ) : String :=
  match s.data.get? i with
  | some c => String.singleton c
  | none => ""

/-- JavaScript `arr.splice(i, 0, a)`: insert `a` at index `i` (the index is
clamped to the array length, which `List.take`/`List.drop` do natively). -/
def jsSpliceInsert (l : List String) (i : ℕ) (a : String) : List String :=
  l.take i ++ a :: l.drop i

/-- The `domainConfig` object of `src/index.js` (lines 2-23). -/
structure DomainConfig where
  topLevelDomains : List String
  subDomainPrefixes : List String
  subDomainRandomLengthMin : ℕ
  subDomainRandomLengthMax : ℕ
  includeWwwAsSpecial : Bool

/-- The shipped configuration literal of `src/index.js`. -/
def domainConfig : DomainConfig :=
  { topLevelDomains := ["example.com", "demo.org", "mysite.net", "product.io"]
    subDomainPrefixes :=
      ["www", "blog", "app", "web", "dev", "api", "beta", "alpha",
       "test", "store", "shop", "cdn", "image", "data", "static",
       "report", "admin", "panel", "user", "member", "service"]
    subDomainRandomLengthMin := 3
    subDomainRandomLengthMax := 6
    includeWwwAsSpecial := true }

/-- The alphabet string of `generateRandomString` (line 31). -/
def characters : String := "abcdefghijklmnopqrstuvwxyz0123456789"

/-- `generateRandomString(length)` of `src/index.js` lines 30-37: build a
string of `length` characters, each `characters.charAt(Math.floor(Math.random()
* characters.length))`, consuming one random value per character.  Returns the
string together with the next unused stream position. -/
def generateRandomString (rs : ℕ → ℚ) : ℕ → ℕ → String × ℕ
  | k, 0 => ("", k)
  | k, n + 1 =>
    let c := jsCharAt characters (mathFloorScale (rs k) characters.length)
    let rest := generateRandomString rs (k + 1) n
    (c ++ rest.1, rest.2)

/-- `generateRandomSubdomain()` of `src/index.js` lines 44-72.  Random draws
in source order: the prefix pick, the `> 0.3` suffix decision, then (when
taken) the suffix length and its characters, then (only when
`includeWwwAsSpecial`, because `&&` short-circuits) the `< 0.2` www decision
and (when taken) the splice index.  The parts are joined with `"-"`. -/
def generateRandomSubdomain (cfg : DomainConfig) (rs : ℕ → ℚ) (k : ℕ) :
    String × ℕ :=
  let prefixList := cfg.subDomainPrefixes
  let firstPart := jsListGet prefixList (mathFloorScale (rs k) prefixList.length)
  let afterB : List String × ℕ :=
    if rs (k + 1) > 3/10 then
      let randomLength :=
        mathFloorScale (rs (k + 2))
          (cfg.subDomainRandomLengthMax - cfg.subDomainRandomLengthMin + 1) +
        cfg.subDomainRandomLengthMin
      let s := generateRandomString rs (k + 3) randomLength
      ([firstPart, s.1], s.2)
    else ([firstPart], k + 2)
  let afterC : List String × ℕ :=
    if cfg.includeWwwAsSpecial then
      if rs afterB.2 < 2/10 then
        let wwwIndex := mathFloorScale (rs (afterB.2 + 1)) (afterB.1.length + 1)
        (jsSpliceInsert afterB.1 wwwIndex "www", afterB.2 + 2)
      else (afterB.1, afterB.2 + 1)
    else (afterB.1, afterB.2)
  (String.intercalate "-" afterC.1, afterC.2)

/-- Steps a and b of `generateRandomSubdomain` (lines 51-58 of the source):
the token list and next unused stream position just before the www-insertion
step. -/
def preWwwState (cfg : DomainConfig) (rs : ℕ → ℚ) (k : ℕ) : List String × ℕ :=
  let prefixList := cfg.subDomainPrefixes
  let firstPart := jsListGet prefixList (mathFloorScale (rs k) prefixList.length)
  if rs (k + 1) > 3/10 then
    let randomLength :=
      mathFloorScale (rs (k + 2))
        (cfg.subDomainRandomLengthMax - cfg.subDomainRandomLengthMin + 1) +
      cfg.subDomainRandomLengthMin
    let s := generateRandomString rs (k + 3) randomLength
    ([firstPart, s.1], s.2)
  else ([firstPart], k + 2)

/-- Step c of `generateRandomSubdomain` (lines 61-64 of the source), on an
arbitrary token list and stream position: when the flag is enabled, one
random value decides the insertion (`< 0.2`) and, when it triggers, a second
one picks the splice index among the `length + 1` insertion points. -/
def wwwStep (cfg : DomainConfig) (rs : ℕ → ℚ) (st : List String × ℕ) :
    List String × ℕ :=
  if cfg.includeWwwAsSpecial then
    if rs st.2 < 2/10 then
      (jsSpliceInsert st.1 (mathFloorScale (rs (st.2 + 1)) (st.1.length + 1))
        "www", st.2 + 2)
    else (st.1, st.2 + 1)
  else st

/-- The character set `[a-z0-9-]` of the spec's URL pattern. -/
def lowerAlnumHyphen : List Char :=
  ("abcdefghijklmnopqrstuvwxyz0123456789-").data

/-- `getRandomTopLevelDomain()` of `src/index.js` lines 79-82. -/
def getRandomTopLevelDomain (cfg : DomainConfig) (rs : ℕ → ℚ) (k : ℕ) :
    String × ℕ :=
  let topDomains := cfg.topLevelDomains
  (jsListGet topDomains (mathFloorScale (rs k) topDomains.length), k + 1)

/-- `buildRedirectURL()` of `src/index.js` lines 88-95: subdomain, then top
domain, then `Math.random() > 0.5 ? 'https' : 'http'`, assembled as
`protocol://subdomainPart.topDomain`. -/
def buildRedirectURL (cfg : DomainConfig) (rs : ℕ → ℚ) (k : ℕ) : String × ℕ :=
  let sub := generateRandomSubdomain cfg rs k
  let top := getRandomTopLevelDomain cfg rs sub.2
  let protocol := if rs top.2 > 1/2 then "https" else "http"
  (protocol ++ "://" ++ sub.1 ++ "." ++ top.1, top.2 + 1)

/-- Observable side effects of the redirector, in the order they are issued. -/
inductive Effect where
  | logInfo (msg : String)
  | navigate (url : String)
  | logError
  | logWarn
deriving DecidableEq

/-- Whether an effect is a navigation attempt (a `window.location.replace`
call). -/
def Effect.isNavigate : Effect → Bool
  | Effect.navigate _ => true
  | _ => false

/-- `performRedirect()` of `src/index.js` lines 100-114: build the URL, log
it, then `try` the navigation; `navThrows` says whether the ambient
`window.location.replace` call throws.  On a throw the `catch` logs the error
and does nothing else (the fallback navigation in the source is commented
out).  Returns the effect trace and the next unused stream position. -/
def performRedirect (cfg : DomainConfig) (rs : ℕ → ℚ) (k : ℕ)
    (navThrows : Bool) : List Effect × ℕ :=
  let target := buildRedirectURL cfg rs k
  let trace :=
    if navThrows then
      [Effect.logInfo ("正在重定向到: " ++ target.1),
       Effect.navigate target.1, Effect.logError]
    else
      [Effect.logInfo ("正在重定向到: " ++ target.1), Effect.navigate target.1]
  (trace, target.2)

/-- JavaScript `localStorage.getItem(key) || '0'`: `null` (entry absent) and
the empty string are falsy, so both default to `"0"`; any other string is
kept. -/
def storedOrDefault : Option String → String
  | none => "0"
  | some s => if s = "" then "0" else s

/-- Fold a digit list into the number it denotes. -/
def digitsToNat (l : List Char) : ℕ :=
  l.foldl (fun acc c => acc * 10 + (c.toNat - 48)) 0

/-- JavaScript `parseInt(s, 10)`: skip leading whitespace, read an optional
sign, then the longest prefix of decimal digits; `none` models `NaN` (no
digit found). -/
def jsParseInt10 (s : String) : Option ℤ :=
  let t := s.data.dropWhile Char.isWhitespace
  let signNeg := t.head? = some '-'
  let t2 := if t.head? = some '-' ∨ t.head? = some '+' then t.tail else t
  let ds := t2.takeWhile Char.isDigit
  if ds = [] then none
  else some (if signNeg then -(digitsToNat ds : ℤ) else (digitsToNat ds : ℤ))

/-- `maxRedirects` of `src/index.js` line 123. -/
def maxRedirects : ℤ := 3

/-- What one invocation of `secureRedirect()` does to the persisted entry and
whether it navigates and schedules the 10-second reset timer. -/
structure RedirectOutcome where
  storage : Option String
  navigated : Bool
  timerScheduled : Bool
deriving DecidableEq

/-- `secureRedirect()` of `src/index.js` lines 120-136, viewed as a function
of the stored `randomRedirectCount` entry.  `redirectCount` is
`parseInt(localStorage.getItem(key) || '0', 10)`; `none` models `NaN`, and
`NaN < maxRedirects` is `false` in JS, so the `none` case takes the blocked
branch.  The allowed branch writes `(redirectCount + 1).toString()`,
schedules the reset timer, and navigates (via `performRedirect`); the blocked
branch only logs a warning. -/
def secureRedirect (stored : Option String) : RedirectOutcome :=
  match jsParseInt10 (storedOrDefault stored) with
  | none => { storage := stored, navigated := false, timerScheduled := false }
  | some n =>
    if n < maxRedirects then
      { storage := some (toString (n + 1)), navigated := true,
        timerScheduled := true }
    else
      { storage := stored, navigated := false, timerScheduled := false }

/-- The deferred `setTimeout` body of line 129: `localStorage.removeItem`. -/
def clearCounter (_ : Option String) : Option String := none

/-- The storage transition of one page load. -/
def stepStorage (s : Option String) : Option String :=
  (secureRedirect s).storage

/-- Storage after `n` consecutive qualifying page loads inside one reset
window (the timer never fires in between), starting from an absent entry. -/
def loadN (n : ℕ) : Option String :=
  stepStorage^[n] none

/-- The parsed counter value a load would see on storage state `s` (`none`
models `NaN`). -/
def parsedCount (s : Option String) : Option ℤ :=
  jsParseInt10 (storedOrDefault s)

/-- The spec's invariant on the persisted entry: absent, or the decimal
numeral of some `n ∈ [0, maxRedirects]`. -/
def InRange (s : Option String) : Prop :=
  s = none ∨ ∃ n : ℕ, n ≤ 3 ∧ s = some (toString n)

/-! ### Helper lemmas -/

lemma mathFloorScale_lt {q : ℚ} {n : ℕ} (_h0 : 0 ≤ q) (h1 : q < 1)
    (hn : 0 < n) : mathFloorScale q n < n := by
  unfold mathFloorScale
  have hlt : q * n < n := by
    have := mul_lt_mul_of_pos_right h1 (by exact_mod_cast hn : (0 : ℚ) < n)
    simpa using this
  have hfl : ⌊q * (n : ℚ)⌋ < (n : ℤ) := by
    exact Int.floor_lt.mpr (by exact_mod_cast hlt)
  omega

lemma mathFloorScale_nonneg_eq {q : ℚ} {n : ℕ} (h0 : 0 ≤ q) :
    (mathFloorScale q n : ℤ) = ⌊q * n⌋ := by
  unfold mathFloorScale
  have : (0 : ℤ) ≤ ⌊q * n⌋ :=
    Int.floor_nonneg.mpr (mul_nonneg h0 (by positivity))
  omega

lemma jsListGet_mem {l : List String} {i : ℕ} (h : i < l.length) :
    jsListGet l i ∈ l := by
  unfold jsListGet
  rw [List.get?_eq_get h]
  exact List.get_mem l i h

lemma intercalate_go_data (sep : String) :
    ∀ (l : List String) (acc : String),
      (String.intercalate.go acc sep l).data =
        acc.data ++ l.foldr (fun x r => sep.data ++ x.data ++ r) [] := by
  intro l
  induction l with
  | nil => intro acc; simp [String.intercalate.go]
  | cons a as ih =>
    intro acc
    rw [String.intercalate.go, ih]
    simp [List.foldr]

lemma intercalate_cons_data (sep x : String) (rest : List String) :
    (String.intercalate sep (x :: rest)).data =
      x.data ++ rest.foldr (fun y r => sep.data ++ y.data ++ r) [] := by
  rw [String.intercalate, intercalate_go_data]

lemma mem_intercalate_foldr {sep : String} {l : List String} {c : Char}
    (h : c ∈ l.foldr (fun y r => sep.data ++ y.data ++ r) []) :
    c ∈ sep.data ∨ ∃ y ∈ l, c ∈ y.data := by
  induction l with
  | nil => simp at h
  | cons a as ih =>
    have h' : c ∈ (sep.data ++ a.data) ++
        as.foldr (fun y r => sep.data ++ y.data ++ r) [] := h
    rcases List.mem_append.mp h' with h1 | h2
    · rcases List.mem_append.mp h1 with h3 | h4
      · exact Or.inl h3
      · exact Or.inr ⟨a, List.mem_cons_self a as, h4⟩
    · rcases ih h2 with h3 | ⟨y, hy, hc⟩
      · exact Or.inl h3
      · exact Or.inr ⟨y, List.mem_cons_of_mem a hy, hc⟩

lemma mem_intercalate {sep : String} {parts : List String} {c : Char}
    (h : c ∈ (String.intercalate sep parts).data) :
    c ∈ sep.data ∨ ∃ y ∈ parts, c ∈ y.data := by
  cases parts with
  | nil => simp [String.intercalate] at h
  | cons x rest =>
    rw [intercalate_cons_data] at h
    rcases List.mem_append.mp h with h | h
    · exact Or.inr ⟨x, List.mem_cons_self x rest, h⟩
    · rcases mem_intercalate_foldr h with h' | ⟨y, hy, hc⟩
      · exact Or.inl h'
      · exact Or.inr ⟨y, List.mem_cons_of_mem x hy, hc⟩

lemma intercalate_cons_ne_empty {sep x : String} {rest : List String}
    (hx : x ≠ "") : String.intercalate sep (x :: rest) ≠ "" := by
  intro hcontra
  have hd : (String.intercalate sep (x :: rest)).data = [] := by
    rw [hcontra]
  rw [intercalate_cons_data] at hd
  rcases List.append_eq_nil.mp hd with ⟨h1, _⟩
  exact hx (String.ext h1)

lemma generateRandomString_chars (rs : ℕ → ℚ) :
    ∀ (n k : ℕ), ∀ c ∈ ((generateRandomString rs k n).1).data,
      c ∈ characters.data := by
  intro n
  induction n with
  | zero => intro k c hc; simp [generateRandomString] at hc
  | succ m ih =>
    intro k c hc
    simp only [generateRandomString, String.data_append] at hc
    rcases List.mem_append.mp hc with h | h
    · unfold jsCharAt at h
      rcases hg : characters.data.get? (mathFloorScale (rs k) characters.length)
        with _ | c'
      · rw [hg] at h; simp [String.singleton] at h
      · rw [hg] at h
        have : c = c' := by
          simpa [String.singleton, String.push] using h
        subst this
        exact List.get?_mem hg
    · exact ih (k + 1) c h

lemma generateRandomString_length {rs : ℕ → ℚ} (hv : ValidSource rs) :
    ∀ (n k : ℕ), ((generateRandomString rs k n).1).length = n := by
  intro n
  induction n with
  | zero => intro k; rfl
  | succ m ih =>
    intro k
    have hidx : mathFloorScale (rs k) characters.length < characters.length :=
      mathFloorScale_lt (hv k).1 (hv k).2 (by decide)
    have hsome : ∃ c, characters.data.get?
        (mathFloorScale (rs k) characters.length) = some c := by
      have : mathFloorScale (rs k) characters.length < characters.data.length :=
        hidx
      exact ⟨_, List.get?_eq_get this⟩
    rcases hsome with ⟨c, hc⟩
    simp only [generateRandomString, String.length_append]
    rw [jsCharAt, hc]
    rw [ih (k + 1)]
    simp [Nat.add_comm]

lemma generateRandomSubdomain_factor (cfg : DomainConfig) (rs : ℕ → ℚ)
    (k : ℕ) :
    generateRandomSubdomain cfg rs k =
      (String.intercalate "-" (wwwStep cfg rs (preWwwState cfg rs k)).1,
       (wwwStep cfg rs (preWwwState cfg rs k)).2) := rfl

lemma www_chars : ∀ c ∈ ("www" : String).data, c ∈ characters.data := by
  decide

lemma characters_sub_lah : ∀ c ∈ characters.data, c ∈ lowerAlnumHyphen := by
  decide

lemma prefixes_good :
    ∀ p ∈ domainConfig.subDomainPrefixes,
      p ≠ "" ∧ ∀ c ∈ p.data, c ∈ characters.data := by
  decide

lemma splice_head (p a : String) (t : List String) (i : ℕ) :
    ∃ xs, jsSpliceInsert (p :: t) i a = a :: xs ∨
      jsSpliceInsert (p :: t) i a = p :: xs := by
  cases i with
  | zero => exact ⟨p :: t, Or.inl rfl⟩
  | succ j =>
    refine ⟨List.take j t ++ a :: List.drop j t, Or.inr ?_⟩
    simp [jsSpliceInsert, List.take_succ_cons, List.drop_succ_cons]

lemma splice_mem {l : List String} {i : ℕ} {a x : String}
    (h : x ∈ jsSpliceInsert l i a) : x ∈ l ∨ x = a := by
  unfold jsSpliceInsert at h
  rcases List.mem_append.mp h with h1 | h2
  · exact Or.inl (List.take_subset i l h1)
  · rcases List.mem_cons.mp h2 with h3 | h4
    · exact Or.inr h3
    · exact Or.inl (List.drop_subset i l h4)

lemma parts_wf (parts : List String)
    (hhead : ∃ x xs, parts = x :: xs ∧ x ≠ "")
    (hall : ∀ x ∈ parts, ∀ c ∈ x.data, c ∈ characters.data) :
    String.intercalate "-" parts ≠ "" ∧
    ∀ c ∈ (String.intercalate "-" parts).data, c ∈ lowerAlnumHyphen := by
  obtain ⟨x, xs, rfl, hx⟩ := hhead
  refine ⟨intercalate_cons_ne_empty hx, ?_⟩
  intro c hc
  rcases mem_intercalate hc with h | ⟨y, hy, hcy⟩
  · have : c = '-' := by simpa using h
    subst this
    decide
  · exact characters_sub_lah c (hall y hy c hcy)

lemma preWwwState_parts (rs : ℕ → ℚ) (k : ℕ) :
    ∃ (rest : List String) (k2 : ℕ),
      preWwwState domainConfig rs k =
        (jsListGet domainConfig.subDomainPrefixes
          (mathFloorScale (rs k) domainConfig.subDomainPrefixes.length) ::
          rest, k2) ∧
      ∀ x ∈ rest, ∀ c ∈ x.data, c ∈ characters.data := by
  by_cases hb : rs (k + 1) > 3/10
  · refine ⟨[(generateRandomString rs (k + 3)
      (mathFloorScale (rs (k + 2))
        (domainConfig.subDomainRandomLengthMax -
          domainConfig.subDomainRandomLengthMin + 1) +
        domainConfig.subDomainRandomLengthMin)).1],
      (generateRandomString rs (k + 3)
        (mathFloorScale (rs (k + 2))
          (domainConfig.subDomainRandomLengthMax -
            domainConfig.subDomainRandomLengthMin + 1) +
          domainConfig.subDomainRandomLengthMin)).2, ?_, ?_⟩
    · simp [preWwwState, hb]
    · intro x hx c hc
      rcases List.mem_singleton.mp hx with rfl
      exact generateRandomString_chars rs _ _ c hc
  · exact ⟨[], k + 2, by simp [preWwwState, hb], by simp⟩

lemma wwwStep_mem {cfg : DomainConfig} {rs : ℕ → ℚ} {st : List String × ℕ}
    {x : String} (h : x ∈ (wwwStep cfg rs st).1) : x ∈ st.1 ∨ x = "www" := by
  unfold wwwStep at h
  split at h
  · split at h
    · exact splice_mem h
    · exact Or.inl h
  · exact Or.inl h

lemma wwwStep_head (cfg : DomainConfig) (rs : ℕ → ℚ) (p : String)
    (t : List String) (k2 : ℕ) :
    ∃ xs, (wwwStep cfg rs (p :: t, k2)).1 = "www" :: xs ∨
      (wwwStep cfg rs (p :: t, k2)).1 = p :: xs := by
  unfold wwwStep
  split
  · split
    · exact splice_head p "www" t _
    · exact ⟨t, Or.inr rfl⟩
  · exact ⟨t, Or.inr rfl⟩

lemma generateRandomSubdomain_wf {rs : ℕ → ℚ} (hv : ValidSource rs) (k : ℕ) :
    (generateRandomSubdomain domainConfig rs k).1 ≠ "" ∧
    ∀ c ∈ ((generateRandomSubdomain domainConfig rs k).1).data,
      c ∈ lowerAlnumHyphen := by
  obtain ⟨rest, k2, hpre, hrest⟩ := preWwwState_parts rs k
  have hpmem : jsListGet domainConfig.subDomainPrefixes
      (mathFloorScale (rs k) domainConfig.subDomainPrefixes.length) ∈
      domainConfig.subDomainPrefixes :=
    jsListGet_mem (mathFloorScale_lt (hv k).1 (hv k).2 (by decide))
  obtain ⟨hpne, hpchars⟩ := prefixes_good _ hpmem
  rw [generateRandomSubdomain_factor, hpre]
  apply parts_wf
  · obtain ⟨xs, hcase⟩ := wwwStep_head domainConfig rs
      (jsListGet domainConfig.subDomainPrefixes
        (mathFloorScale (rs k) domainConfig.subDomainPrefixes.length))
      rest k2
    rcases hcase with hcase | hcase
    · exact ⟨"www", xs, hcase, by decide⟩
    · exact ⟨_, xs, hcase, hpne⟩
  · intro x hx c hc
    rcases wwwStep_mem hx with hx' | rfl
    · rcases List.mem_cons.mp hx' with rfl | hx''
      · exact hpchars c hc
      · exact hrest x hx'' c hc
    · exact www_chars c hc

lemma zeroSource_valid : ValidSource zeroSource :=
  fun _ => ⟨le_refl 0, by norm_num [zeroSource]⟩

lemma mathFloorScale_uniform (m j : ℕ) (u : ℚ) (h0 : 0 ≤ u) (_h1 : u < 1) :
    mathFloorScale u (m + 1) = j ↔
      (j : ℚ) / ((m : ℚ) + 1) ≤ u ∧ u < ((j : ℚ) + 1) / ((m : ℚ) + 1) := by
  have hm : (0 : ℚ) < (m : ℚ) + 1 := by positivity
  unfold mathFloorScale
  have hnn : (0 : ℤ) ≤ ⌊u * ((m + 1 : ℕ) : ℚ)⌋ :=
    Int.floor_nonneg.mpr (by positivity)
  rw [div_le_iff₀ hm, lt_div_iff₀ hm]
  constructor
  · intro h
    have hz : ⌊u * ((m + 1 : ℕ) : ℚ)⌋ = (j : ℤ) := by omega
    obtain ⟨hle, hlt⟩ := Int.floor_eq_iff.mp hz
    constructor
    · push_cast at hle ⊢; linarith
    · push_cast at hlt ⊢; linarith
  · rintro ⟨hle, hlt⟩
    have hz : ⌊u * ((m + 1 : ℕ) : ℚ)⌋ = (j : ℤ) := by
      apply Int.floor_eq_iff.mpr
      constructor
      · push_cast at hle ⊢; linarith
      · push_cast at hlt ⊢; linarith
    omega

lemma loadN_three_plus (m : ℕ) : loadN (3 + m) = some "3" := by
  induction m with
  | zero => decide
  | succ n ih =>
    have harith : 3 + (n + 1) = (3 + n) + 1 := rfl
    rw [loadN, harith, Function.iterate_succ_apply']
    have ih' : stepStorage^[3 + n] none = some "3" := ih
    rw [ih']
    decide

/-! ### Claim theorems -/

/-- C1 (counterexample): the claim "a non-numeric stored value such as
`"abc"` is treated as 0: navigation occurs and the counter becomes `"1"`" is
false on the code: `parseInt("abc", 10)` is `NaN`, `NaN < 3` is `false`, so
`secureRedirect` takes the blocked branch — no navigation and the entry stays
`"abc"`. -/
theorem c1_nonnumeric_counterexample :
    ¬ ((secureRedirect (some "abc")).navigated = true ∧
       (secureRedirect (some "abc")).storage = some "1") := by
  decide

/-- C1 (amended): a missing entry (and, because `||` treats the empty string
as falsy, an empty one) is treated as count 0 — navigation occurs and the
persisted counter becomes `"1"`; but a non-numeric value with no digit prefix
such as `"abc"` parses to `NaN`, fails `NaN < maxRedirects`, and takes the
blocked branch: no navigation, no timer, and the stored value is left
untouched. -/
theorem c1_default_and_nan_amended :
    ((secureRedirect none).navigated = true ∧
     (secureRedirect none).storage = some "1") ∧
    ((secureRedirect (some "")).navigated = true ∧
     (secureRedirect (some "")).storage = some "1") ∧
    ((secureRedirect (some "abc")).navigated = false ∧
     (secureRedirect (some "abc")).storage = some "abc" ∧
     (secureRedirect (some "abc")).timerScheduled = false) := by
  decide

/-- C2: starting from absent storage, after `N ≥ 1` consecutive qualifying
page loads inside one reset window the persisted counter is the decimal
string of `min N 3`, and the 4th qualifying load in the same window performs
no navigation. -/
theorem c2_counter_monotonicity (N : ℕ) (h : 1 ≤ N) :
    loadN N = some (toString (min N 3)) ∧
    (secureRedirect (loadN 3)).navigated = false := by
  constructor
  · rcases N with _ | _ | _ | m
    · omega
    · decide
    · decide
    · have h3 : loadN (m + 3) = some "3" := by
        have := loadN_three_plus m
        rwa [Nat.add_comm] at this
      show loadN (m + 3) = some (toString (min (m + 3) 3))
      rw [h3, show min (m + 3) 3 = 3 by omega]
      decide
  · decide

/-- C2 witness: the theorem applied at the concrete load count 2. -/
theorem c2_counter_monotonicity_witness :
    1 ≤ 2 ∧
    (loadN 2 = some (toString (min 2 3)) ∧
     (secureRedirect (loadN 3)).navigated = false) :=
  ⟨by decide, c2_counter_monotonicity 2 (by decide)⟩

/-- C3: from any in-range storage state (absent, or the numeral of some
`n ∈ [0, maxRedirects]`) a page load keeps the state in range, the deferred
timer clearing keeps it in range, and once the entry equals `"3"` (the
numeral of `maxRedirects`) the load performs no navigation and leaves the
entry exactly as it is. -/
theorem c3_counter_invariant (s : Option String) (h : InRange s) :
    InRange ((secureRedirect s).storage) ∧
    InRange (clearCounter s) ∧
    (s = some (toString (3 : ℕ)) →
      (secureRedirect s).navigated = false ∧ (secureRedirect s).storage = s) := by
  refine ⟨?_, Or.inl rfl, ?_⟩
  · rcases h with rfl | ⟨n, hn, rfl⟩
    · exact Or.inr ⟨1, by omega, by decide⟩
    · interval_cases n
      · exact Or.inr ⟨1, by omega, by decide⟩
      · exact Or.inr ⟨2, by omega, by decide⟩
      · exact Or.inr ⟨3, by omega, by decide⟩
      · exact Or.inr ⟨3, by omega, by decide⟩
  · intro hs
    subst hs
    exact ⟨by decide, by decide⟩

/-- C3 witness: the theorem applied at the saturated state `some "3"`. -/
theorem c3_counter_invariant_witness :
    InRange (some "3") ∧
    (InRange ((secureRedirect (some "3")).storage) ∧
     InRange (clearCounter (some "3")) ∧
     (some "3" = some (toString (3 : ℕ)) →
       (secureRedirect (some "3")).navigated = false ∧
       (secureRedirect (some "3")).storage = some "3")) :=
  ⟨Or.inr ⟨3, by omega, by decide⟩,
   c3_counter_invariant (some "3") (Or.inr ⟨3, by omega, by decide⟩)⟩

/-- C4: for every valid random source, `buildRedirectURL` under the shipped
configuration returns `scheme ++ "://" ++ label ++ "." ++ tld` where the
scheme is `https` or `http`, the label is a non-empty string over
`[a-z0-9-]`, and the tld is one of the configured top-level domains — i.e.
the regex `(https|http)://[a-z0-9-]+\.(TLD)` anchored on both ends. -/
theorem c4_composeURL_pattern (rs : ℕ → ℚ) (k : ℕ) (hv : ValidSource rs) :
    ∃ scheme label tld : String,
      (scheme = "https" ∨ scheme = "http") ∧
      tld ∈ domainConfig.topLevelDomains ∧
      label ≠ "" ∧ (∀ c ∈ label.data, c ∈ lowerAlnumHyphen) ∧
      (buildRedirectURL domainConfig rs k).1 =
        scheme ++ "://" ++ label ++ "." ++ tld := by
  obtain ⟨hne, hchars⟩ := generateRandomSubdomain_wf hv k
  refine ⟨if rs ((getRandomTopLevelDomain domainConfig rs
        ((generateRandomSubdomain domainConfig rs k).2)).2) > 1/2
      then "https" else "http",
    (generateRandomSubdomain domainConfig rs k).1,
    (getRandomTopLevelDomain domainConfig rs
      ((generateRandomSubdomain domainConfig rs k).2)).1,
    ?_, ?_, hne, hchars, rfl⟩
  · split_ifs with hp
    · exact Or.inl rfl
    · exact Or.inr rfl
  · exact jsListGet_mem (mathFloorScale_lt
      (hv ((generateRandomSubdomain domainConfig rs k).2)).1
      (hv ((generateRandomSubdomain domainConfig rs k).2)).2 (by decide))

/-- C4 witness: the theorem applied at the all-zeros valid source. -/
theorem c4_composeURL_pattern_witness :
    ValidSource zeroSource ∧
    ∃ scheme label tld : String,
      (scheme = "https" ∨ scheme = "http") ∧
      tld ∈ domainConfig.topLevelDomains ∧
      label ≠ "" ∧ (∀ c ∈ label.data, c ∈ lowerAlnumHyphen) ∧
      (buildRedirectURL domainConfig zeroSource 0).1 =
        scheme ++ "://" ++ label ++ "." ++ tld :=
  ⟨zeroSource_valid, c4_composeURL_pattern zeroSource 0 zeroSource_valid⟩

/-- C5: for every valid random source, the subdomain label built under the
shipped configuration is non-empty, contains no dot, and contains no
character outside `[a-z0-9-]`. -/
theorem c5_subdomain_label_wellformed (rs : ℕ → ℚ) (k : ℕ)
    (hv : ValidSource rs) :
    (generateRandomSubdomain domainConfig rs k).1 ≠ "" ∧
    (∀ c ∈ ((generateRandomSubdomain domainConfig rs k).1).data, c ≠ '.') ∧
    (∀ c ∈ ((generateRandomSubdomain domainConfig rs k).1).data,
      c ∈ lowerAlnumHyphen) := by
  obtain ⟨h1, h2⟩ := generateRandomSubdomain_wf hv k
  refine ⟨h1, ?_, h2⟩
  intro c hc heq
  have hmem := h2 c hc
  rw [heq] at hmem
  exact absurd hmem (by decide)

/-- C5 witness: the theorem applied at the all-zeros valid source. -/
theorem c5_subdomain_label_wellformed_witness :
    ValidSource zeroSource ∧
    ((generateRandomSubdomain domainConfig zeroSource 0).1 ≠ "" ∧
     (∀ c ∈ ((generateRandomSubdomain domainConfig zeroSource 0).1).data,
       c ≠ '.') ∧
     (∀ c ∈ ((generateRandomSubdomain domainConfig zeroSource 0).1).data,
       c ∈ lowerAlnumHyphen)) :=
  ⟨zeroSource_valid, c5_subdomain_label_wellformed zeroSource 0 zeroSource_valid⟩

/-- C6: for every valid random source, stream position and length `L`,
`generateRandomString` returns a string of length exactly `L` over the
lowercase alphanumeric alphabet, and `L = 0` yields the empty string. -/
theorem c6_token_length_charset (rs : ℕ → ℚ) (k L : ℕ) (hv : ValidSource rs) :
    ((generateRandomString rs k L).1).length = L ∧
    (∀ c ∈ ((generateRandomString rs k L).1).data, c ∈ characters.data) ∧
    (generateRandomString rs k 0).1 = "" :=
  ⟨generateRandomString_length hv L k, generateRandomString_chars rs L k, rfl⟩

/-- C6 witness: the theorem applied at the all-zeros valid source with
length 5. -/
theorem c6_token_length_charset_witness :
    ValidSource zeroSource ∧
    (((generateRandomString zeroSource 0 5).1).length = 5 ∧
     (∀ c ∈ ((generateRandomString zeroSource 0 5).1).data,
       c ∈ characters.data) ∧
     (generateRandomString zeroSource 0 0).1 = "") :=
  ⟨zeroSource_valid, c6_token_length_charset zeroSource 0 5 zeroSource_valid⟩

/-- C7: with the include-www flag enabled, `generateRandomSubdomain` joins
the tokens produced by `wwwStep` applied after steps a-b (`preWwwState`);
`wwwStep` reads one fresh random value `u` (at a stream position strictly
after every value consumed by steps a and b, hence an independent draw) and
inserts the literal `"www"` exactly when `u < 2/10` (an event of probability
0.2 for a uniform draw on `[0,1)`), at splice index
`mathFloorScale v (length + 1)` for a second fresh value `v`; that index hits
each of the `length + 1` insertion points `j` exactly on the interval
`[j/(length+1), (j+1)/(length+1))`, all of equal width — a uniform choice —
and index `0` inserts before the first token while index `length` inserts
after the last. -/
theorem c7_www_insertion_uniform (cfg : DomainConfig) (rs : ℕ → ℚ) (k : ℕ)
    (hflag : cfg.includeWwwAsSpecial = true) :
    (generateRandomSubdomain cfg rs k).1 =
      String.intercalate "-" (wwwStep cfg rs (preWwwState cfg rs k)).1 ∧
    wwwStep cfg rs (preWwwState cfg rs k) =
      (if rs (preWwwState cfg rs k).2 < 2/10 then
        (jsSpliceInsert (preWwwState cfg rs k).1
          (mathFloorScale (rs ((preWwwState cfg rs k).2 + 1))
            ((preWwwState cfg rs k).1.length + 1)) "www",
         (preWwwState cfg rs k).2 + 2)
      else ((preWwwState cfg rs k).1, (preWwwState cfg rs k).2 + 1)) ∧
    (∀ (len j : ℕ) (u : ℚ), j ≤ len → 0 ≤ u → u < 1 →
      (mathFloorScale u (len + 1) = j ↔
        (j : ℚ) / ((len : ℚ) + 1) ≤ u ∧ u < ((j : ℚ) + 1) / ((len : ℚ) + 1))) ∧
    (∀ l : List String, jsSpliceInsert l 0 "www" = "www" :: l ∧
      jsSpliceInsert l l.length "www" = l ++ ["www"]) := by
  refine ⟨rfl, ?_, ?_, ?_⟩
  · simp only [wwwStep, hflag, if_true]
  · intro len j u _ h0 h1
    exact mathFloorScale_uniform len j u h0 h1
  · intro l
    exact ⟨rfl, by simp [jsSpliceInsert]⟩

/-- C7 witness: the theorem applied to the shipped configuration (whose flag
is enabled) at the all-zeros source. -/
theorem c7_www_insertion_uniform_witness :
    domainConfig.includeWwwAsSpecial = true ∧
    ((generateRandomSubdomain domainConfig zeroSource 0).1 =
      String.intercalate "-"
        (wwwStep domainConfig zeroSource (preWwwState domainConfig zeroSource 0)).1 ∧
    wwwStep domainConfig zeroSource (preWwwState domainConfig zeroSource 0) =
      (if zeroSource (preWwwState domainConfig zeroSource 0).2 < 2/10 then
        (jsSpliceInsert (preWwwState domainConfig zeroSource 0).1
          (mathFloorScale (zeroSource ((preWwwState domainConfig zeroSource 0).2 + 1))
            ((preWwwState domainConfig zeroSource 0).1.length + 1)) "www",
         (preWwwState domainConfig zeroSource 0).2 + 2)
      else ((preWwwState domainConfig zeroSource 0).1,
        (preWwwState domainConfig zeroSource 0).2 + 1)) ∧
    (∀ (len j : ℕ) (u : ℚ), j ≤ len → 0 ≤ u → u < 1 →
      (mathFloorScale u (len + 1) = j ↔
        (j : ℚ) / ((len : ℚ) + 1) ≤ u ∧ u < ((j : ℚ) + 1) / ((len : ℚ) + 1))) ∧
    (∀ l : List String, jsSpliceInsert l 0 "www" = "www" :: l ∧
      jsSpliceInsert l l.length "www" = l ++ ["www"])) :=
  ⟨rfl, c7_www_insertion_uniform domainConfig zeroSource 0 rfl⟩

/-- C8: when the navigation call throws, `performRedirect`'s effect trace is
exactly the info log, the single navigation attempt, and the caught-error
log — nothing after it: exactly one navigation attempt (no retry), every
attempted URL is the composed one (no alternate destination), and the error
log is the final action of the page load. -/
theorem c8_navigation_failure_swallowed (cfg : DomainConfig) (rs : ℕ → ℚ)
    (k : ℕ) :
    (performRedirect cfg rs k true).1 =
      [Effect.logInfo ("正在重定向到: " ++ (buildRedirectURL cfg rs k).1),
       Effect.navigate ((buildRedirectURL cfg rs k).1), Effect.logError] ∧
    ((performRedirect cfg rs k true).1.countP Effect.isNavigate) = 1 ∧
    (∀ url, Effect.navigate url ∈ (performRedirect cfg rs k true).1 →
      url = (buildRedirectURL cfg rs k).1) ∧
    ((performRedirect cfg rs k true).1.getLast? = some Effect.logError) := by
  refine ⟨rfl, rfl, ?_, rfl⟩
  intro url hmem
  simp only [performRedirect, if_true, List.mem_cons, List.mem_singleton,
    List.not_mem_nil] at hmem
  rcases hmem with h | h | h
  · exact absurd h (by simp)
  · injection h
  · exact absurd h (by simp)

/-- C9: `generateRandomSubdomain` and `buildRedirectURL` are deterministic in
the random value sequence and the static configuration — two runs fed
pointwise-equal random streams return identical results (there is no hidden
state). -/
theorem c9_determinism (cfg : DomainConfig) (rs1 rs2 : ℕ → ℚ) (k : ℕ)
    (h : ∀ i, rs1 i = rs2 i) :
    generateRandomSubdomain cfg rs1 k = generateRandomSubdomain cfg rs2 k ∧
    buildRedirectURL cfg rs1 k = buildRedirectURL cfg rs2 k := by
  have heq : rs1 = rs2 := funext h
  subst heq
  exact ⟨rfl, rfl⟩

/-- C9 witness: the theorem applied to two (syntactically equal) copies of
the all-zeros stream. -/
theorem c9_determinism_witness :
    (∀ i : ℕ, zeroSource i = zeroSource i) ∧
    (generateRandomSubdomain domainConfig zeroSource 0 =
      generateRandomSubdomain domainConfig zeroSource 0 ∧
     buildRedirectURL domainConfig zeroSource 0 =
      buildRedirectURL domainConfig zeroSource 0) :=
  ⟨fun _ => rfl, c9_determinism domainConfig zeroSource zeroSource 0 fun _ => rfl⟩

/-- C10: whenever the parsed counter is not below the maximum — including the
`NaN` case, where `parsedCount` is `none` and the hypothesis holds vacuously —
`secureRedirect` leaves the stored entry exactly as it was, schedules no
reset timer, and attempts no navigation. -/
theorem c10_blocked_branch_frame (s : Option String)
    (h : ∀ n : ℤ, parsedCount s = some n → maxRedirects ≤ n) :
    secureRedirect s =
      { storage := s, navigated := false, timerScheduled := false } := by
  unfold secureRedirect
  cases hp : jsParseInt10 (storedOrDefault s) with
  | none => rfl
  | some n =>
    have hn : maxRedirects ≤ n := h n hp
    dsimp only
    rw [if_neg (by omega : ¬ n < maxRedirects)]

/-- C10 witness: the theorem applied at the `NaN` state `some "abc"`. -/
theorem c10_blocked_branch_frame_witness :
    (∀ n : ℤ, parsedCount (some "abc") = some n → maxRedirects ≤ n) ∧
    secureRedirect (some "abc") =
      { storage := some "abc", navigated := false, timerScheduled := false } := by
  have h : ∀ n : ℤ, parsedCount (some "abc") = some n → maxRedirects ≤ n := by
    intro n hn
    rw [show parsedCount (some "abc") = none from by decide] at hn
    exact Option.noConfusion hn
  exact ⟨h, c10_blocked_branch_frame (some "abc") h⟩
